import Mathlib

/-!
Verification of the in-memory TTL cache of `angular-rxjs-ops`.

This file gives a shallow embedding of the two core source files:

* `src/app/services/cache.service.ts` — class `CacheService`: a JavaScript
  `Map`-backed key/value store with TTL expiry, max-size eviction and
  hit/miss statistics.  The insertion-ordered `Map<string, CacheEntry>` is
  embedded as an association list with unique keys; `Date.now()` becomes an
  explicit `now : Nat` argument; every mutating method becomes a function
  from a `CacheState` to a result together with the next `CacheState`.

* `src/app/interceptors/caching.interceptor.ts` — `cachingInterceptor`:
  modelled as a function of the request, the current cache state and the
  behaviour of the downstream continuation (the fully elaborated RxJS
  event stream it would produce), returning the produced result, the next
  cache state, and how many times the continuation was subscribed.

JavaScript peculiarities are kept faithfully and flagged with comments:
the `||` (not `??`) fallback for `options.ttl`, and the truthiness guard
`if (oldestKey)` which treats the empty-string key like `null`.
-/

namespace AngularRxjsOps

/-- A JSON-serialisable parameter value, as passed to `generateKey`
(`Record<string, any>`); numbers and strings cover the values the
application uses. -/
inductive JsValue : Type
  | num (n : Int)
  | str (s : String)
deriving DecidableEq

/-- `JSON.stringify` restricted to `JsValue` (string escaping is not
modelled; the application's parameter values contain no quotes). -/
def jsonStringify : JsValue → String
  | .num n => toString n
  | .str s => "\"" ++ s ++ "\""

/-- `CacheEntry<T>` from `cache.service.ts`: value, absolute expiry
timestamp, creation timestamp (both in milliseconds). -/
structure CacheEntry (V : Type) : Type where
  value : V
  expiry : Nat
  createdAt : Nat
deriving DecidableEq

/-- `CacheOptions` from `cache.service.ts`; `maxSize` is declared there but
never consumed by `set`. -/
structure CacheOptions : Type where
  ttl : Option Nat := none
  maxSize : Option Nat := none
deriving DecidableEq

/-- The mutable fields of the `CacheService` singleton: the `Map` (embedded
as an insertion-ordered association list) and the two stat counters. -/
structure CacheState (V : Type) : Type where
  cache : List (String × CacheEntry V)
  hits : Nat
  misses : Nat
deriving DecidableEq

/-- Result shape of `getStats()`. -/
structure CacheStats : Type where
  hits : Nat
  misses : Nat
  size : Nat
  hitRate : ℚ
deriving DecidableEq

namespace CacheService

/-- `private readonly defaultTTL = 10 * 60 * 1000` (10 minutes). -/
def defaultTTL : Nat := 10 * 60 * 1000

/-- `private readonly maxSize = 100`. -/
def maxSize : Nat := 100

/-- The state of a freshly constructed `CacheService`: empty map, zero
counters. -/
def initialState (V : Type) : CacheState V := ⟨[], 0, 0⟩

/-- `Map.prototype.get`: first (and, for unique keys, only) binding of a
key. -/
def mapGet (k : String) : List (String × α) → Option α
  | [] => none
  | p :: rest => if p.1 = k then some p.2 else mapGet k rest

/-- `Map.prototype.set`: overwrite in place if the key is present
(preserving its position in insertion order), otherwise append. -/
def mapSet (k : String) (v : α) : List (String × α) → List (String × α)
  | [] => [(k, v)]
  | p :: rest => if p.1 = k then (k, v) :: rest else p :: mapSet k v rest

/-- `Map.prototype.delete`: remove the binding of a key (the first one; a
JS `Map` holds at most one). -/
def mapDelete (k : String) : List (String × α) → List (String × α)
  | [] => []
  | p :: rest => if p.1 = k then rest else p :: mapDelete k rest

/-- A JS `Map` never holds two bindings for one key; association lists
reachable through the service keep this invariant. -/
def WFMap (m : List (String × α)) : Prop := (m.map Prod.fst).Nodup

instance (m : List (String × α)) : Decidable (WFMap m) := by
  unfold WFMap; infer_instance

/-- `private isExpired(entry)`: `Date.now() > entry.expiry`. -/
def isExpired (now : Nat) (entry : CacheEntry V) : Bool := now > entry.expiry

/-- `get<T>(key)`: returns the live value and bumps `hits`, or returns
`null` and bumps `misses` (deleting the entry first when it is present but
expired). -/
def get (key : String) (now : Nat) (st : CacheState V) :
    Option V × CacheState V :=
  match mapGet key st.cache with
  | none => (none, { st with misses := st.misses + 1 })
  | some entry =>
    if isExpired now entry then
      (none, { st with cache := mapDelete key st.cache, misses := st.misses + 1 })
    else
      (some entry.value, { st with hits := st.hits + 1 })

/-- The (key, createdAt) scan of `evictOldestEntry`: fold over the map in
insertion order tracking `oldestKey` (initially `null`, here `none`) and
`oldestTime` (initially `Infinity`, here `none`); a strictly smaller
`createdAt` takes over, so ties keep the first entry encountered. -/
def evictScan (m : List (String × CacheEntry V)) : Option String × Option Nat :=
  m.foldl
    (fun acc p =>
      match acc.2 with
      | none => (some p.1, some p.2.createdAt)
      | some t => if p.2.createdAt < t then (some p.1, some p.2.createdAt) else acc)
    (none, none)

/-- `private evictOldestEntry()`.  The source guards the deletion with
`if (oldestKey)`: a JS truthiness test, false both for `null` (empty map)
and for the empty string — so when the oldest entry's key is `""` nothing
is evicted. -/
def evictOldestEntry (m : List (String × CacheEntry V)) :
    List (String × CacheEntry V) :=
  match (evictScan m).1 with
  | none => m
  | some oldestKey => if oldestKey = "" then m else mapDelete oldestKey m

/-- `set<T>(key, value, options?)`.  The TTL fallback in the source is
`options?.ttl || this.defaultTTL` — JavaScript `||`, which also replaces a
supplied `ttl` of `0` by the default.  If `size >= maxSize` before the
insertion, `evictOldestEntry()` runs first.  Always returns `true`. -/
def set (key : String) (value : V) (options : Option CacheOptions) (now : Nat)
    (st : CacheState V) : Bool × CacheState V :=
  let ttl : Nat :=
    match options with
    | none => defaultTTL
    | some o =>
      match o.ttl with
      | none => defaultTTL
      | some t => if t = 0 then defaultTTL else t
  let entry : CacheEntry V := ⟨value, now + ttl, now⟩
  let cache1 :=
    if st.cache.length ≥ maxSize then evictOldestEntry st.cache else st.cache
  (true, { st with cache := mapSet key entry cache1 })

/-- `has(key)`: liveness check without touching the counters; deletes an
expired entry it observes. -/
def has (key : String) (now : Nat) (st : CacheState V) : Bool × CacheState V :=
  match mapGet key st.cache with
  | none => (false, st)
  | some entry =>
    if isExpired now entry then
      (false, { st with cache := mapDelete key st.cache })
    else
      (true, st)

/-- `delete(key)`: unconditional removal, reporting whether anything was
removed. -/
def delete (key : String) (st : CacheState V) : Bool × CacheState V :=
  ((mapGet key st.cache).isSome, { st with cache := mapDelete key st.cache })

/-- `clear()`: drop all entries and reset both counters. -/
def clear (_st : CacheState V) : Bool × CacheState V :=
  (true, { cache := [], hits := 0, misses := 0 })

/-- `Math.round` on an exact rational: round half up. -/
def jsRound (q : ℚ) : ℤ := ⌊q + 1 / 2⌋

/-- `getStats()`: hit rate is `hits / (hits + misses) * 100` rounded to two
decimals, `0` when no `get` has happened. -/
def getStats (st : CacheState V) : CacheStats :=
  let total := st.hits + st.misses
  { hits := st.hits
    misses := st.misses
    size := st.cache.length
    hitRate :=
      if total > 0 then
        (jsRound ((st.hits : ℚ) / (total : ℚ) * 100 * 100) : ℚ) / 100
      else 0 }

/-- The `for (const [key, entry] of this.cache.entries())` loop of
`cleanup()`: deleting the entry under the iterator is safe in JS, so the
loop keeps exactly the entries with `expiry > now` and counts the rest. -/
def cleanupScan (now : Nat) :
    List (String × CacheEntry V) → List (String × CacheEntry V) × Nat
  | [] => ([], 0)
  | p :: rest =>
    let r := cleanupScan now rest
    if p.2.expiry ≤ now then (r.1, r.2 + 1) else (p :: r.1, r.2)

/-- `cleanup()`: removes every entry with `expiry <= now`, returns the
number removed.  (The minute interval started by the constructor invokes
exactly this function.) -/
def cleanup (now : Nat) (st : CacheState V) : Nat × CacheState V :=
  let r := cleanupScan now st.cache
  (r.2, { st with cache := r.1 })

/-- `generateKey(url, params?)`: appends `?` and the `k=JSON.stringify(v)`
pairs joined by `&` — keys sorted by the default JS `Array.sort`, i.e.
lexicographic string order — but only when `params` is present and
non-empty. -/
def generateKey (url : String) (params : Option (List (String × JsValue))) :
    String :=
  match params with
  | none => url
  | some ps =>
    if ps.length > 0 then
      let queryString :=
        String.intercalate "&"
          (((ps.map Prod.fst).mergeSort (fun a b => a ≤ b)).map
            (fun k =>
              k ++ "=" ++
                match mapGet k ps with
                | some v => jsonStringify v
                | none => "undefined"))
      url ++ "?" ++ queryString
    else url

/-- One call into the service's public API, timestamped with the
`Date.now()` value in force while it runs; used to reason about whole
call sequences. -/
inductive Op (V : Type) : Type
  | getOp (key : String)
  | setOp (key : String) (value : V) (options : Option CacheOptions)
  | hasOp (key : String)
  | deleteOp (key : String)
  | clearOp
  | cleanupOp
deriving DecidableEq

/-- State transition of a single timestamped call (results discarded). -/
def step (st : CacheState V) : Op V × Nat → CacheState V
  | (.getOp k, now) => (get k now st).2
  | (.setOp k v o, now) => (set k v o now st).2
  | (.hasOp k, now) => (has k now st).2
  | (.deleteOp k, _) => (delete k st).2
  | (.clearOp, _) => (clear st).2
  | (.cleanupOp, now) => (cleanup now st).2

/-- Run a sequence of timestamped calls from a state. -/
def run (st : CacheState V) (ops : List (Op V × Nat)) : CacheState V :=
  ops.foldl step st

/-- Number of `get` calls in a sequence. -/
def countGet : List (Op V × Nat) → Nat
  | [] => 0
  | (.getOp _, _) :: rest => countGet rest + 1
  | _ :: rest => countGet rest

end CacheService

/-! ### The HTTP caching interceptor

`caching.interceptor.ts` in terms of the embedded `CacheService`.  An
Angular `HttpHandlerFn` produces an RxJS stream of `HttpEvent`s; we model
the continuation by the outcome of subscribing to it once: either the
stream completes after emitting a list of events, or it fails with an
error after emitting some events.  `tap` observes each emitted event and,
for those that are `HttpResponse`s (`event instanceof HttpResponse`),
writes `event.clone()` into the cache; the stream itself is passed through
unchanged, so an error reaches the subscriber verbatim. -/

/-- `HttpResponse<B>`, reduced to the fields the program reads. -/
structure HttpResponse (B : Type) : Type where
  status : Nat
  body : B
deriving DecidableEq

/-- `HttpResponse.clone()`: a fresh object with the same contents, which
under value semantics is the same value. -/
def HttpResponse.clone (r : HttpResponse B) : HttpResponse B :=
  { status := r.status, body := r.body }

/-- An Angular `HttpEvent`: either a lower-level progress-style event or a
completed `HttpResponse`.  Only the `instanceof HttpResponse` distinction
matters to the interceptor. -/
inductive HttpEvent (B : Type) : Type
  | sent
  | progress (loaded : Nat)
  | response (r : HttpResponse B)
deriving DecidableEq

/-- `event instanceof HttpResponse`. -/
def HttpEvent.isResponse : HttpEvent B → Bool
  | .response _ => true
  | _ => false

/-- The request fields the interceptor reads. -/
structure HttpRequest : Type where
  method : String
  urlWithParams : String
deriving DecidableEq

/-- The observable a continuation (`next(req)`) stands for, described by
what one subscription to it does: emit `events` and complete, or emit
`events` and then fail with `err`. -/
inductive ContOutcome (B E : Type) : Type
  | success (events : List (HttpEvent B))
  | failure (events : List (HttpEvent B)) (err : E)
deriving DecidableEq

/-- The events a continuation outcome emits before terminating. -/
def ContOutcome.events : ContOutcome B E → List (HttpEvent B)
  | .success evs => evs
  | .failure evs _ => evs

/-- What the interceptor hands back to its subscriber: `of(cached)` on a
hit, otherwise the continuation's stream passed through `tap` (which never
alters the elements or the error). -/
inductive InterceptResult (B E : Type) : Type
  | fromCache (r : HttpResponse B)
  | passthrough (o : ContOutcome B E)
deriving DecidableEq

/-- The `tap` side effect: fold the emitted events over the cache state,
storing `event.clone()` under the request's key (no options, hence default
TTL) for each completed response. -/
def tapStore (key : String) (now : Nat) (st : CacheState (HttpResponse B))
    (evs : List (HttpEvent B)) : CacheState (HttpResponse B) :=
  evs.foldl
    (fun s ev =>
      match ev with
      | .response r => (CacheService.set key r.clone none now s).2
      | _ => s)
    st

/-- `cachingInterceptor(req, next)`.  Non-GET requests pass straight
through.  For GET, the cache is consulted under `req.urlWithParams`; a
truthy cached value (cached values are `HttpResponse` objects, which are
always truthy) is returned via `of(...)` without touching the
continuation; otherwise the continuation's stream is returned through the
caching `tap`.  The third component counts subscriptions to the
continuation. -/
def cachingInterceptor (req : HttpRequest) (now : Nat)
    (st : CacheState (HttpResponse B)) (next : ContOutcome B E) :
    InterceptResult B E × CacheState (HttpResponse B) × Nat :=
  if req.method ≠ "GET" then
    (.passthrough next, st, 1)
  else
    match CacheService.get req.urlWithParams now st with
    | (some r, st') => (.fromCache r, st', 0)
    | (none, st') =>
      (.passthrough next, tapStore req.urlWithParams now st' next.events, 1)

/-! ### Concrete scenarios

States used to evaluate the operations at specific inputs: a full cache
whose chronologically oldest entry sits under the empty-string key
(reached through 100 public `set` calls), and a full cache of 100
distinct non-empty keys. -/

namespace CacheService

/-- 100 distinct keys, the empty string first. -/
def fillKeys : List String :=
  "" :: (List.range 99).map (fun i => "k" ++ toString (i + 1))

/-- The state after `set`ting each of `fillKeys` (value 0, no options) at
times 0, 1, …, 99: a full cache whose oldest entry (createdAt 0) is the
one keyed by the empty string. -/
def fullCacheEmptyOldest : CacheState Nat :=
  run (initialState Nat)
    (fillKeys.enum.map (fun p => (Op.setOp p.2 0 none, p.1)))

/-- A full cache of 100 distinct non-empty keys `k0`, …, `k99` created at
times 0, …, 99. -/
def denseCache : List (String × CacheEntry Nat) :=
  (List.range 100).map (fun i => ("k" ++ toString i, ⟨i, 700000 + i, i⟩))

/-- `denseCache` as a service state. -/
def denseState : CacheState Nat := ⟨denseCache, 3, 4⟩

/-- A one-entry state whose entry expires at time 10. -/
def smallState : CacheState Nat := ⟨[("k", ⟨42, 10, 0⟩)], 0, 0⟩

end CacheService

/-! ### Lemmas about the embedded `Map` operations -/

namespace CacheService

variable {V : Type} {α : Type}

lemma mapGet_mapSet_self (k : String) (v : α) (m : List (String × α)) :
    mapGet k (mapSet k v m) = some v := by
  induction m with
  | nil => simp [mapGet, mapSet]
  | cons p rest ih =>
    by_cases h : p.1 = k
    · simp [mapGet, mapSet, h]
    · simp [mapGet, mapSet, h, ih]

lemma mapGet_mapSet_ne {k k' : String} (h : k' ≠ k) (v : α)
    (m : List (String × α)) : mapGet k' (mapSet k v m) = mapGet k' m := by
  induction m with
  | nil => simp [mapGet, mapSet, Ne.symm h]
  | cons p rest ih =>
    by_cases hp : p.1 = k
    · simp [mapGet, mapSet, hp, Ne.symm h]
    · simp [mapGet, mapSet, hp, ih]

lemma mapGet_mapDelete_ne {k k' : String} (h : k' ≠ k)
    (m : List (String × α)) : mapGet k' (mapDelete k m) = mapGet k' m := by
  induction m with
  | nil => simp [mapDelete]
  | cons p rest ih =>
    by_cases hp : p.1 = k
    · simp [mapGet, mapDelete, hp, Ne.symm h]
    · simp [mapGet, mapDelete, hp, ih]

lemma mapGet_eq_none_of_not_mem {k : String} {m : List (String × α)}
    (h : k ∉ m.map Prod.fst) : mapGet k m = none := by
  induction m with
  | nil => simp [mapGet]
  | cons p rest ih =>
    simp only [List.map_cons, List.mem_cons] at h
    push_neg at h
    simp [mapGet, Ne.symm h.1, ih h.2]

lemma mapGet_mapDelete_self {k : String} {m : List (String × α)}
    (h : WFMap m) : mapGet k (mapDelete k m) = none := by
  induction m with
  | nil => simp [mapDelete, mapGet]
  | cons p rest ih =>
    simp only [WFMap, List.map_cons, List.nodup_cons] at h
    by_cases hp : p.1 = k
    · have hdel : mapDelete k (p :: rest) = rest := by simp [mapDelete, hp]
      rw [hdel]
      exact mapGet_eq_none_of_not_mem (hp ▸ h.1)
    · simp [mapDelete, hp, mapGet, ih h.2]

lemma mapGet_isSome_iff_mem (k : String) (m : List (String × α)) :
    (mapGet k m).isSome ↔ k ∈ m.map Prod.fst := by
  induction m with
  | nil => simp [mapGet]
  | cons p rest ih =>
    by_cases hp : p.1 = k
    · simp [mapGet, hp]
    · simp [mapGet, hp, ih, Ne.symm hp]

lemma mapDelete_length_of_mem {k : String} {m : List (String × α)}
    (h : (mapGet k m).isSome) : (mapDelete k m).length + 1 = m.length := by
  induction m with
  | nil => simp [mapGet] at h
  | cons p rest ih =>
    by_cases hp : p.1 = k
    · simp [mapDelete, hp]
    · simp only [mapGet, hp, if_false] at h
      simp [mapDelete, hp, ← ih h]

lemma mapSet_length_of_mem {k : String} {m : List (String × α)} (v : α)
    (h : (mapGet k m).isSome) : (mapSet k v m).length = m.length := by
  induction m with
  | nil => simp [mapGet] at h
  | cons p rest ih =>
    by_cases hp : p.1 = k
    · simp [mapSet, hp]
    · simp only [mapGet, hp, if_false] at h
      simp [mapSet, hp, ih h]

lemma mapSet_of_not_mem {k : String} {m : List (String × α)} (v : α)
    (h : mapGet k m = none) : mapSet k v m = m ++ [(k, v)] := by
  induction m with
  | nil => rfl
  | cons p rest ih =>
    by_cases hp : p.1 = k
    · simp [mapGet, hp] at h
    · simp only [mapGet, hp, if_false] at h
      simp [mapSet, hp, ih h]

lemma evictScan_go_mem {m : List (String × CacheEntry V)} {k : String} :
    ∀ acc : Option String × Option Nat,
      (m.foldl
          (fun acc p =>
            match acc.2 with
            | none => (some p.1, some p.2.createdAt)
            | some t =>
              if p.2.createdAt < t then (some p.1, some p.2.createdAt) else acc)
          acc).1 = some k →
      k ∈ m.map Prod.fst ∨ acc.1 = some k := by
  induction m with
  | nil => exact fun acc h => Or.inr h
  | cons p rest ih =>
    intro acc h
    simp only [List.foldl_cons] at h
    simp only [List.map_cons, List.mem_cons]
    rcases acc with ⟨k?, t?⟩
    cases t? with
    | none =>
      rcases ih (some p.1, some p.2.createdAt) h with h1 | h1
      · exact Or.inl (Or.inr h1)
      · injection h1 with h1
        exact Or.inl (Or.inl h1.symm)
    | some t =>
      by_cases hlt : p.2.createdAt < t
      · simp only [hlt, if_true] at h
        rcases ih (some p.1, some p.2.createdAt) h with h1 | h1
        · exact Or.inl (Or.inr h1)
        · injection h1 with h1
          exact Or.inl (Or.inl h1.symm)
      · simp only [hlt, if_false] at h
        rcases ih (k?, some t) h with h1 | h1
        · exact Or.inl (Or.inr h1)
        · exact Or.inr h1

lemma evictScan_mem {m : List (String × CacheEntry V)} {k : String}
    (h : (evictScan m).1 = some k) : k ∈ m.map Prod.fst := by
  rcases evictScan_go_mem (m := m) (k := k) (none, none) h with h1 | h1
  · exact h1
  · simp at h1

/-! ### Lemmas about the service operations -/

/-- The entry stored by `set` is retrievable under its key, whatever the
eviction branch did, and carries expiry `now` plus the effective TTL of
the JavaScript fallback `options?.ttl || defaultTTL`. -/
lemma mapGet_set_self (key : String) (v : V) (options : Option CacheOptions)
    (now : Nat) (st : CacheState V) :
    mapGet key ((set key v options now st).2.cache) =
      some ⟨v, now +
        (match options with
         | none => defaultTTL
         | some o =>
           match o.ttl with
           | none => defaultTTL
           | some t => if t = 0 then defaultTTL else t), now⟩ := by
  unfold set
  exact mapGet_mapSet_self _ _ _

lemma get_of_mapGet_none {key : String} {st : CacheState V} (now : Nat)
    (h : mapGet key st.cache = none) :
    get key now st = (none, { st with misses := st.misses + 1 }) := by
  simp [get, h]

lemma get_of_mapGet_live {key : String} {st : CacheState V} {e : CacheEntry V}
    {now : Nat} (h : mapGet key st.cache = some e) (hlive : ¬ now > e.expiry) :
    get key now st = (some e.value, { st with hits := st.hits + 1 }) := by
  simp [get, h, isExpired, hlive]

lemma get_of_mapGet_expired {key : String} {st : CacheState V}
    {e : CacheEntry V} {now : Nat} (h : mapGet key st.cache = some e)
    (hexp : now > e.expiry) :
    get key now st =
      (none, { st with cache := mapDelete key st.cache,
                       misses := st.misses + 1 }) := by
  simp [get, h, isExpired, hexp]

lemma get_counter_sum (key : String) (now : Nat) (st : CacheState V) :
    (get key now st).2.hits + (get key now st).2.misses =
      st.hits + st.misses + 1 := by
  unfold get
  rcases h : mapGet key st.cache with _ | e
  · simp; omega
  · by_cases hexp : isExpired now e <;> simp [hexp] <;> omega

lemma get_counter_cases (key : String) (now : Nat) (st : CacheState V) :
    ((get key now st).2.hits = st.hits + 1 ∧
      (get key now st).2.misses = st.misses) ∨
    ((get key now st).2.hits = st.hits ∧
      (get key now st).2.misses = st.misses + 1) := by
  unfold get
  rcases h : mapGet key st.cache with _ | e
  · exact Or.inr ⟨rfl, rfl⟩
  · by_cases hexp : isExpired now e <;> simp [hexp]

lemma set_counters (key : String) (v : V) (options : Option CacheOptions)
    (now : Nat) (st : CacheState V) :
    (set key v options now st).2.hits = st.hits ∧
      (set key v options now st).2.misses = st.misses :=
  ⟨rfl, rfl⟩

lemma has_counters (key : String) (now : Nat) (st : CacheState V) :
    (has key now st).2.hits = st.hits ∧
      (has key now st).2.misses = st.misses := by
  unfold has
  rcases h : mapGet key st.cache with _ | e
  · exact ⟨rfl, rfl⟩
  · by_cases hexp : isExpired now e <;> simp [hexp]

lemma cleanup_counters (now : Nat) (st : CacheState V) :
    (cleanup now st).2.hits = st.hits ∧
      (cleanup now st).2.misses = st.misses :=
  ⟨rfl, rfl⟩

lemma cleanupScan_fst (now : Nat) (m : List (String × CacheEntry V)) :
    (cleanupScan now m).1 = m.filter (fun p => decide (now < p.2.expiry)) := by
  induction m with
  | nil => simp [cleanupScan]
  | cons p rest ih =>
    by_cases h : p.2.expiry ≤ now
    · simp [cleanupScan, h, ih, Nat.not_lt.mpr h]
    · simp [cleanupScan, h, ih, Nat.lt_of_not_le h]

lemma cleanupScan_snd (now : Nat) (m : List (String × CacheEntry V)) :
    (cleanupScan now m).2 = m.countP (fun p => decide (p.2.expiry ≤ now)) := by
  induction m with
  | nil => simp [cleanupScan]
  | cons p rest ih =>
    by_cases h : p.2.expiry ≤ now <;>
      simp [cleanupScan, h, ih, List.countP_cons]

/-- Over a clear-free call sequence, `hits + misses` grows by exactly the
number of `get` calls. -/
lemma run_counter_sum (ops : List (Op V × Nat)) :
    ∀ st : CacheState V, (∀ o ∈ ops, o.1 ≠ Op.clearOp) →
      (run st ops).hits + (run st ops).misses =
        st.hits + st.misses + countGet ops := by
  induction ops with
  | nil => intro st _; simp [run, countGet]
  | cons op rest ih =>
    intro st h
    have hop : op.1 ≠ Op.clearOp := h op (List.mem_cons_self op rest)
    have hrest : ∀ o ∈ rest, o.1 ≠ Op.clearOp :=
      fun o ho => h o (List.mem_cons_of_mem op ho)
    have hstep : run st (op :: rest) = run (step st op) rest := by
      simp [run]
    rw [hstep, ih (step st op) hrest]
    rcases op with ⟨k, now⟩
    cases k with
    | getOp key =>
      have := get_counter_sum key now st
      simp only [step, countGet]
      omega
    | setOp key v o => simp only [step, countGet]; rfl
    | hasOp key =>
      have := has_counters key now st
      simp only [step, countGet]
      omega
    | deleteOp key => simp only [step, countGet]; rfl
    | clearOp => exact absurd rfl hop
    | cleanupOp => simp only [step, countGet]; rfl

end CacheService

/-! ### Lemmas about the interceptor's tap -/

lemma HttpResponse.clone_eq (r : HttpResponse B) : r.clone = r := rfl

lemma tapStore_of_no_response {evs : List (HttpEvent B)}
    (h : ∀ ev ∈ evs, ev.isResponse = false) (key : String) (now : Nat)
    (st : CacheState (HttpResponse B)) : tapStore key now st evs = st := by
  induction evs generalizing st with
  | nil => rfl
  | cons ev rest ih =>
    have hev : ev.isResponse = false := h ev (List.mem_cons_self ev rest)
    have hrest : ∀ e ∈ rest, HttpEvent.isResponse e = false :=
      fun e he => h e (List.mem_cons_of_mem ev he)
    cases ev with
    | sent => exact ih hrest st
    | progress n => exact ih hrest st
    | response r => simp [HttpEvent.isResponse] at hev

lemma tapStore_append (key : String) (now : Nat)
    (st : CacheState (HttpResponse B)) (evs1 evs2 : List (HttpEvent B)) :
    tapStore key now st (evs1 ++ evs2) =
      tapStore key now (tapStore key now st evs1) evs2 := by
  simp [tapStore]

lemma tapStore_single_response (key : String) (now : Nat)
    (st : CacheState (HttpResponse B)) (r : HttpResponse B) :
    tapStore key now st [.response r] =
      (CacheService.set key r.clone none now st).2 := rfl

/-! ### Permutation invariance of association-list lookup and sorting -/

namespace CacheService

lemma mapGet_perm {p q : List (String × α)} (hperm : p.Perm q)
    (hnd : (p.map Prod.fst).Nodup) (k : String) : mapGet k p = mapGet k q := by
  induction hperm with
  | nil => rfl
  | cons x h ih =>
    simp only [List.map_cons, List.nodup_cons] at hnd
    by_cases hx : x.1 = k
    · simp [mapGet, hx]
    · simp [mapGet, hx, ih hnd.2]
  | swap x y l =>
    simp only [List.map_cons, List.nodup_cons, List.mem_cons] at hnd
    by_cases hy : y.1 = k
    · have hx : ¬ x.1 = k := by
        intro hx
        have hxy : x.1 = y.1 := hx.trans hy.symm
        simp [hxy] at hnd
      simp [mapGet, hx, hy]
    · by_cases hx : x.1 = k
      · simp [mapGet, hx, hy]
      · simp [mapGet, hx, hy]
  | trans h1 h2 ih1 ih2 =>
    have hnd2 : _ := ((h1.map Prod.fst).nodup_iff).mp hnd
    exact (ih1 hnd).trans (ih2 hnd2)

lemma mergeSort_eq_of_perm {p q : List String} (h : p.Perm q) :
    p.mergeSort (fun a b => a ≤ b) = q.mergeSort (fun a b => a ≤ b) := by
  haveI : IsAntisymm String (· ≤ ·) := ⟨fun a b h1 h2 => le_antisymm h1 h2⟩
  refine List.eq_of_perm_of_sorted (r := (· ≤ ·))
    (((p.mergeSort_perm (fun a b => a ≤ b)).trans h).trans
      (q.mergeSort_perm (fun a b => a ≤ b)).symm) ?_ ?_
  · exact List.sorted_mergeSort' p
  · exact List.sorted_mergeSort' q

end CacheService

/-! ### The claims -/

namespace CacheService

/-- C1, counterexample: the claim predicts that `set("x", 0, {ttl: 0})` at
time 5 stores expiry `5 + 0 = 5`; the code's `options?.ttl || defaultTTL`
treats the supplied `0` as falsy and stores `5 + 600000` instead. -/
theorem claim1_ttl_zero_counterexample :
    (mapGet "x" ((set "x" (0 : Nat) (some { ttl := some 0, maxSize := none })
        5 (initialState Nat)).2.cache)).map CacheEntry.expiry = some 600005 ∧
    ¬ (mapGet "x" ((set "x" (0 : Nat) (some { ttl := some 0, maxSize := none })
        5 (initialState Nat)).2.cache)).map CacheEntry.expiry = some (5 + 0) := by
  decide

/-- C1, amended: for every `set(key, value, options)` at time `now`, the
stored entry's expiry equals `now` plus the effective TTL, where the
effective TTL is `options.ttl` when it is supplied and non-zero, and the
10-minute default when `options` or `options.ttl` is absent or
`options.ttl` is `0` (the source uses the falsy-coalescing `||`, not
`??`). -/
theorem claim1_set_expiry (V : Type) (key : String) (value : V)
    (options : Option CacheOptions) (now : Nat) (st : CacheState V) :
    mapGet key ((set key value options now st).2.cache) =
      some ⟨value,
        now +
          (match options with
           | none => defaultTTL
           | some o =>
             match o.ttl with
             | none => defaultTTL
             | some t => if t = 0 then defaultTTL else t), now⟩ :=
  mapGet_set_self key value options now st

/-- C2: inserting `maxSize + 1 = 101` distinct keys — the empty string
first, at time 0 — leaves 101 entries, not 100, and the oldest-created
entry (the one keyed `""`) is still present: the eviction scan does pick
`""` as the oldest key, but the `if (oldestKey)` truthiness guard skips
the deletion because the empty string is falsy in JavaScript, so the
101st `set` evicts nothing.  The recursion-depth option is needed only to
evaluate the 100-insert scenario.  This contradicts the source's own comments
(`Enforce max size by removing oldest entries`, `Evicts the oldest entry
when cache is full`): a code bug. -/
theorem claim2_maxSize_violated_on_empty_key :
    fullCacheEmptyOldest.cache.length = maxSize ∧
    (evictScan fullCacheEmptyOldest.cache).1 = some "" ∧
    (set "k100" (0 : Nat) none 100 fullCacheEmptyOldest).2.cache.length
      = maxSize + 1 ∧
    mapGet "" ((set "k100" (0 : Nat) none 100 fullCacheEmptyOldest).2.cache)
      ≠ none := by
  set_option maxRecDepth 20000 in
  refine ⟨by decide, by decide, by decide, by decide⟩

/-- C6: `cleanup` removes exactly the entries with `expiry <= now`,
returns how many it removed, leaves both counters untouched; and on a
3-entry cache with 2 entries expired at time 100 it removes and returns
2. -/
theorem claim6_cleanup (V : Type) (now : Nat) (st : CacheState V) :
    (cleanup now st).1 = st.cache.countP (fun p => decide (p.2.expiry ≤ now)) ∧
    (cleanup now st).2.cache
      = st.cache.filter (fun p => decide (now < p.2.expiry)) ∧
    (cleanup now st).2.hits = st.hits ∧
    (cleanup now st).2.misses = st.misses ∧
    (cleanup 100
        (⟨[("a", ⟨1, 50, 0⟩), ("b", ⟨2, 100, 1⟩), ("c", ⟨3, 200, 2⟩)], 0, 0⟩ :
          CacheState Nat)).1 = 2 := by
  refine ⟨cleanupScan_snd now st.cache, ?_, rfl, rfl, by decide⟩
  show (cleanupScan now st.cache).1 = _
  exact cleanupScan_fst now st.cache

/-- C7, counterexample: the claim states that `generateKey` always returns
the base identifier followed by a `?` separator; for the empty parameter
record the code skips the separator and returns the bare identifier. -/
theorem claim7_empty_params_counterexample :
    generateKey "u" (some []) = "u" ∧ generateKey "u" (some []) ≠ "u" ++ "?" := by
  constructor
  · rfl
  · decide

/-- The order-independence of `generateKey`, as a reusable fact: the same
parameter set in any input order produces the same key. -/
lemma generateKey_perm (url : String) (p q : List (String × JsValue))
    (hperm : p.Perm q) (hnd : (p.map Prod.fst).Nodup) :
    generateKey url (some p) = generateKey url (some q) := by
  unfold generateKey
  have hlen : p.length = q.length := hperm.length_eq
  by_cases hp : p.length > 0
  · have hq : q.length > 0 := hlen ▸ hp
    simp only [hp, hq, if_true]
    have hkeys : (p.map Prod.fst).Perm (q.map Prod.fst) := hperm.map Prod.fst
    rw [mergeSort_eq_of_perm hkeys]
    congr 1
    congr 1
    apply List.map_congr_left
    intro k _
    rw [mapGet_perm hperm hnd k]
  · have hq : ¬ q.length > 0 := by omega
    simp [hp, hq]

/-- C7, amended: `generateKey` is deterministic and order-independent —
for a non-empty parameter record it is the base identifier, `?`, and the
sorted `key=JSON(value)` pairs joined by `&`, while an empty or absent
record yields the bare identifier — so the same parameter set in any
input order produces the same key; in particular
`generateKey("u", {b:1,a:2}) = generateKey("u", {a:2,b:1})`. -/
theorem claim7_generateKey_order_independent (url : String)
    (p q : List (String × JsValue)) (hperm : p.Perm q)
    (hnd : (p.map Prod.fst).Nodup) :
    generateKey url (some p) = generateKey url (some q) ∧
    generateKey "u" (some [("b", JsValue.num 1), ("a", JsValue.num 2)]) =
      generateKey "u" (some [("a", JsValue.num 2), ("b", JsValue.num 1)]) :=
  ⟨generateKey_perm url p q hperm hnd,
   generateKey_perm "u" _ _ (by decide) (by decide)⟩

/-- C7, witness: the theorem applied to the two-parameter records of the
claim. -/
theorem claim7_witness :
    generateKey "u" (some [("b", JsValue.num 1), ("a", JsValue.num 2)]) =
      generateKey "u" (some [("a", JsValue.num 2), ("b", JsValue.num 1)]) ∧
    generateKey "u" (some [("b", JsValue.num 1), ("a", JsValue.num 2)]) =
      generateKey "u" (some [("a", JsValue.num 2), ("b", JsValue.num 1)]) :=
  claim7_generateKey_order_independent "u"
    [("b", JsValue.num 1), ("a", JsValue.num 2)]
    [("a", JsValue.num 2), ("b", JsValue.num 1)] (by decide) (by decide)

end CacheService

/-- C8: a non-GET request passes to the continuation unmodified, the
continuation is invoked (once), and the cache state — entries and
counters — is untouched. -/
theorem claim8_non_get_passthrough (B E : Type) (req : HttpRequest)
    (now : Nat) (st : CacheState (HttpResponse B)) (next : ContOutcome B E)
    (h : req.method ≠ "GET") :
    cachingInterceptor req now st next = (.passthrough next, st, 1) := by
  simp [cachingInterceptor, h]

/-- C8, witness: a POST request against the fresh service state. -/
theorem claim8_witness :
    cachingInterceptor ⟨"POST", "https://reqres.in/api/users"⟩ 0
        (CacheService.initialState (HttpResponse Nat))
        (.success [] : ContOutcome Nat String) =
      (.passthrough (.success []),
        CacheService.initialState (HttpResponse Nat), 1) :=
  claim8_non_get_passthrough Nat String ⟨"POST", "https://reqres.in/api/users"⟩
    0 (CacheService.initialState (HttpResponse Nat)) (.success [])
    (by decide)

namespace CacheService

/-- C4: with an entry stored under `key`, expiry means strictly
`now > expiry`: when that holds, `get` returns `null` and `has` returns
`false` and each deletes the entry on observation; when it does not hold
(including `now = expiry`), `get` returns the live value and `has`
returns `true`, and neither touches the map. -/
theorem claim4_expired_never_returned (V : Type) (key : String) (now : Nat)
    (st : CacheState V) (e : CacheEntry V)
    (hwf : WFMap st.cache)
    (hmem : mapGet key st.cache = some e) :
    (now > e.expiry →
      (get key now st).1 = none ∧
      mapGet key (get key now st).2.cache = none ∧
      (has key now st).1 = false ∧
      mapGet key (has key now st).2.cache = none) ∧
    (¬ now > e.expiry →
      (get key now st).1 = some e.value ∧
      (get key now st).2.cache = st.cache ∧
      (has key now st).1 = true ∧
      (has key now st).2.cache = st.cache) := by
  constructor
  · intro hexp
    have hg := get_of_mapGet_expired hmem hexp
    have hh : has key now st =
        (false, { st with cache := mapDelete key st.cache }) := by
      simp [has, hmem, isExpired, hexp]
    rw [hg, hh]
    exact ⟨rfl, mapGet_mapDelete_self hwf, rfl, mapGet_mapDelete_self hwf⟩
  · intro hlive
    have hg := get_of_mapGet_live hmem hlive
    have hh : has key now st = (true, st) := by
      simp [has, hmem, isExpired, hlive]
    rw [hg, hh]
    exact ⟨rfl, rfl, rfl, rfl⟩

/-- C4, witness: the one-entry state whose entry expires at 10, observed
at time 11 (expired: removed by both `get` and `has`) and at time 10 (the
boundary is not yet expired: value returned, map untouched). -/
theorem claim4_witness :
    ((11 > (10 : Nat) →
      (get "k" 11 smallState).1 = none ∧
      mapGet "k" (get "k" 11 smallState).2.cache = none ∧
      (has "k" 11 smallState).1 = false ∧
      mapGet "k" (has "k" 11 smallState).2.cache = none) ∧
    (¬ 11 > (10 : Nat) →
      (get "k" 11 smallState).1 = some 42 ∧
      (get "k" 11 smallState).2.cache = smallState.cache ∧
      (has "k" 11 smallState).1 = true ∧
      (has "k" 11 smallState).2.cache = smallState.cache)) ∧
    ((10 > (10 : Nat) →
      (get "k" 10 smallState).1 = none ∧
      mapGet "k" (get "k" 10 smallState).2.cache = none ∧
      (has "k" 10 smallState).1 = false ∧
      mapGet "k" (has "k" 10 smallState).2.cache = none) ∧
    (¬ 10 > (10 : Nat) →
      (get "k" 10 smallState).1 = some 42 ∧
      (get "k" 10 smallState).2.cache = smallState.cache ∧
      (has "k" 10 smallState).1 = true ∧
      (has "k" 10 smallState).2.cache = smallState.cache)) :=
  ⟨claim4_expired_never_returned Nat "k" 11 smallState ⟨42, 10, 0⟩
      (by decide) (by decide),
   claim4_expired_never_returned Nat "k" 10 smallState ⟨42, 10, 0⟩
      (by decide) (by decide)⟩

/-- C5: over any clear-free call sequence, `getStats().hits + misses`
grows by exactly the number of `get` calls; a single `get` bumps exactly
one of the two counters; `has`, `set`, `delete` and `cleanup` change
neither counter; `clear` resets both to zero. -/
theorem claim5_stats_count_gets (V : Type) (st s : CacheState V)
    (ops : List (Op V × Nat)) (key : String) (v : V)
    (options : Option CacheOptions) (now : Nat)
    (h : ∀ o ∈ ops, o.1 ≠ Op.clearOp) :
    (getStats (run st ops)).hits + (getStats (run st ops)).misses =
      (getStats st).hits + (getStats st).misses + countGet ops ∧
    (((get key now s).2.hits = s.hits + 1 ∧
        (get key now s).2.misses = s.misses) ∨
      ((get key now s).2.hits = s.hits ∧
        (get key now s).2.misses = s.misses + 1)) ∧
    ((has key now s).2.hits = s.hits ∧
      (has key now s).2.misses = s.misses) ∧
    ((set key v options now s).2.hits = s.hits ∧
      (set key v options now s).2.misses = s.misses) ∧
    ((delete key s).2.hits = s.hits ∧
      (delete key s).2.misses = s.misses) ∧
    ((cleanup now s).2.hits = s.hits ∧
      (cleanup now s).2.misses = s.misses) ∧
    ((clear s).2.hits = 0 ∧ (clear s).2.misses = 0) := by
  refine ⟨?_, get_counter_cases key now s, has_counters key now s,
    set_counters key v options now s, ⟨rfl, rfl⟩,
    cleanup_counters now s, rfl, rfl⟩
  simpa [getStats] using run_counter_sum ops st h

/-- C5, witness: a concrete clear-free sequence of four calls containing
two `get`s, starting from the fresh state, together with the per-call
counter facts at concrete arguments. -/
theorem claim5_witness :
    (getStats (run (initialState Nat)
        [(Op.getOp "a", 0), (Op.setOp "a" 5 none, 1),
         (Op.getOp "a", 2), (Op.hasOp "a", 3)])).hits +
      (getStats (run (initialState Nat)
        [(Op.getOp "a", 0), (Op.setOp "a" 5 none, 1),
         (Op.getOp "a", 2), (Op.hasOp "a", 3)])).misses =
      (getStats (initialState Nat)).hits +
        (getStats (initialState Nat)).misses +
        countGet [(Op.getOp "a", 0), (Op.setOp "a" 5 none, 1),
          (Op.getOp "a", 2), (Op.hasOp "a", 3)] ∧
    (((get "a" 0 (initialState Nat)).2.hits = (initialState Nat).hits + 1 ∧
        (get "a" 0 (initialState Nat)).2.misses = (initialState Nat).misses) ∨
      ((get "a" 0 (initialState Nat)).2.hits = (initialState Nat).hits ∧
        (get "a" 0 (initialState Nat)).2.misses
          = (initialState Nat).misses + 1)) ∧
    ((has "a" 0 (initialState Nat)).2.hits = (initialState Nat).hits ∧
      (has "a" 0 (initialState Nat)).2.misses = (initialState Nat).misses) ∧
    ((set "a" 7 none 0 (initialState Nat)).2.hits = (initialState Nat).hits ∧
      (set "a" 7 none 0 (initialState Nat)).2.misses
        = (initialState Nat).misses) ∧
    ((delete "a" (initialState Nat)).2.hits = (initialState Nat).hits ∧
      (delete "a" (initialState Nat)).2.misses = (initialState Nat).misses) ∧
    ((cleanup 0 (initialState Nat)).2.hits = (initialState Nat).hits ∧
      (cleanup 0 (initialState Nat)).2.misses = (initialState Nat).misses) ∧
    ((clear (initialState Nat)).2.hits = 0 ∧
      (clear (initialState Nat)).2.misses = 0) :=
  claim5_stats_count_gets Nat (initialState Nat) (initialState Nat)
    [(Op.getOp "a", 0), (Op.setOp "a" 5 none, 1),
     (Op.getOp "a", 2), (Op.hasOp "a", 3)] "a" 7 none 0 (by decide)

/-- C10, counterexample: the claim's universal scope includes a full
store whose oldest-by-creation entry is keyed by the empty string.  In
`fullCacheEmptyOldest` the key `"k1"` is present, the store holds exactly
`maxSize` entries and the eviction scan selects `""` as oldest — yet
overwriting `"k1"` evicts nothing: the `if (oldestKey)` truthiness guard
skips the deletion, the oldest entry survives, and the store still holds
all `maxSize` entries, so no eviction of the oldest entry was
triggered. -/
theorem claim10_full_overwrite_counterexample :
    (mapGet "k1" fullCacheEmptyOldest.cache).isSome = true ∧
    fullCacheEmptyOldest.cache.length = maxSize ∧
    (evictScan fullCacheEmptyOldest.cache).1 = some "" ∧
    mapGet "" ((set "k1" (0 : Nat) none 100 fullCacheEmptyOldest).2.cache)
      ≠ none ∧
    ((set "k1" (0 : Nat) none 100 fullCacheEmptyOldest).2.cache).length
      = maxSize := by
  set_option maxRecDepth 20000 in
  exact ⟨by decide, by decide, by decide, by decide, by decide⟩

/-- C10, amended: when the store is full (`size >= maxSize`) and `set` is
called on a key `k` that is already present, the eviction scan still runs
before the overwrite, and whenever the oldest-by-creation key `k0` is
non-empty (so the truthiness guard of C2 does not suppress the deletion)
the eviction really happens: if `k0` is a different, unrelated key it is
removed and the map shrinks by one even though the overwrite alone would
not have grown it; if `k` itself is the oldest, `k`'s own old entry is
evicted and the new entry re-appended at the end of the insertion order,
leaving the size unchanged. -/
theorem claim10_overwrite_full_still_evicts (V : Type) (k k0 : String)
    (v : V) (options : Option CacheOptions) (now : Nat) (st : CacheState V)
    (e0 : CacheEntry V)
    (hwf : WFMap st.cache)
    (hmem : mapGet k st.cache = some e0)
    (hfull : st.cache.length ≥ maxSize)
    (hold : (evictScan st.cache).1 = some k0)
    (hk0 : k0 ≠ "") :
    (mapGet k ((set k v options now st).2.cache)).isSome = true ∧
    (k0 ≠ k →
      mapGet k0 ((set k v options now st).2.cache) = none ∧
      ((set k v options now st).2.cache).length + 1 = st.cache.length) ∧
    (k0 = k →
      (set k v options now st).2.cache =
        mapDelete k st.cache ++
          [(k, ⟨v, now +
            (match options with
             | none => defaultTTL
             | some o =>
               match o.ttl with
               | none => defaultTTL
               | some t => if t = 0 then defaultTTL else t), now⟩)] ∧
      ((set k v options now st).2.cache).length = st.cache.length) := by
  have hcache : ∀ e : CacheEntry V,
      mapSet k e (if st.cache.length ≥ maxSize then evictOldestEntry st.cache
        else st.cache) = mapSet k e (mapDelete k0 st.cache) := by
    intro e
    rw [if_pos hfull]
    unfold evictOldestEntry
    rw [hold]
    simp [hk0]
  have hk0mem : (mapGet k0 st.cache).isSome := by
    rw [mapGet_isSome_iff_mem]
    exact evictScan_mem hold
  refine ⟨?_, fun hne => ?_, fun heq => ?_⟩
  · show (mapGet k (mapSet k _ _)).isSome = true
    rw [hcache, mapGet_mapSet_self]
    rfl
  · have hkdel : mapGet k (mapDelete k0 st.cache) = some e0 := by
      rw [mapGet_mapDelete_ne (Ne.symm hne), hmem]
    constructor
    · show mapGet k0 (mapSet k _ _) = none
      rw [hcache, mapGet_mapSet_ne hne, mapGet_mapDelete_self hwf]
    · show (mapSet k _ _).length + 1 = st.cache.length
      rw [hcache, mapSet_length_of_mem _ (by rw [hkdel]; rfl),
        mapDelete_length_of_mem hk0mem]
  · subst heq
    have hgone : mapGet k0 (mapDelete k0 st.cache) = none :=
      mapGet_mapDelete_self hwf
    have happ : ∀ e : CacheEntry V,
        mapSet k0 e (mapDelete k0 st.cache)
          = mapDelete k0 st.cache ++ [(k0, e)] :=
      fun e => mapSet_of_not_mem e hgone
    constructor
    · show mapSet k0 _ _ = _
      rw [hcache, happ]
    · show (mapSet k0 _ _).length = st.cache.length
      rw [hcache, happ, List.length_append]
      simp only [List.length_singleton]
      exact mapDelete_length_of_mem hk0mem

/-- C10, witness: the dense full cache of non-empty keys `k0`, …, `k99`:
overwriting the already-present `k50` evicts the unrelated oldest key
`k0` and shrinks the map to 99 entries, while overwriting `k0` itself —
the oldest — evicts `k0`'s old entry and re-appends the new one, leaving
100 entries. -/
theorem claim10_witness :
    ((mapGet "k50" ((set "k50" (7 : Nat) none 200 denseState).2.cache)).isSome
        = true ∧
      ("k0" ≠ "k50" →
        mapGet "k0" ((set "k50" (7 : Nat) none 200 denseState).2.cache)
          = none ∧
        ((set "k50" (7 : Nat) none 200 denseState).2.cache).length + 1
          = denseState.cache.length) ∧
      ("k0" = "k50" →
        (set "k50" (7 : Nat) none 200 denseState).2.cache =
          mapDelete "k50" denseState.cache ++
            [("k50", ⟨7, 200 + defaultTTL, 200⟩)] ∧
        ((set "k50" (7 : Nat) none 200 denseState).2.cache).length
          = denseState.cache.length)) ∧
    ((mapGet "k0" ((set "k0" (7 : Nat) none 200 denseState).2.cache)).isSome
        = true ∧
      ("k0" ≠ "k0" →
        mapGet "k0" ((set "k0" (7 : Nat) none 200 denseState).2.cache)
          = none ∧
        ((set "k0" (7 : Nat) none 200 denseState).2.cache).length + 1
          = denseState.cache.length) ∧
      ("k0" = "k0" →
        (set "k0" (7 : Nat) none 200 denseState).2.cache =
          mapDelete "k0" denseState.cache ++
            [("k0", ⟨7, 200 + defaultTTL, 200⟩)] ∧
        ((set "k0" (7 : Nat) none 200 denseState).2.cache).length
          = denseState.cache.length)) := by
  set_option maxRecDepth 20000 in
  exact
    ⟨claim10_overwrite_full_still_evicts Nat "k50" "k0" 7 none 200
      denseState ⟨50, 700050, 50⟩ (by decide) (by decide) (by decide)
      (by decide) (by decide),
     claim10_overwrite_full_still_evicts Nat "k0" "k0" 7 none 200
      denseState ⟨0, 700000, 0⟩ (by decide) (by decide) (by decide)
      (by decide) (by decide)⟩

end CacheService

open CacheService in
/-- C9: a GET whose lookup misses and whose continuation fails emits the
failure verbatim — same events, same error, never swallowed or wrapped —
invokes the continuation exactly once, and the continuation phase leaves
the entry mapping exactly as the lookup left it; in particular, when the
key was genuinely absent the whole mapping is unchanged. -/
theorem claim9_failure_never_cached (B E : Type) (req : HttpRequest)
    (now : Nat) (st : CacheState (HttpResponse B))
    (pre : List (HttpEvent B)) (e : E)
    (hm : req.method = "GET")
    (hmiss : (get req.urlWithParams now st).1 = none)
    (hpre : ∀ ev ∈ pre, ev.isResponse = false) :
    cachingInterceptor req now st (.failure pre e) =
      (.passthrough (.failure pre e), (get req.urlWithParams now st).2, 1) ∧
    (mapGet req.urlWithParams st.cache = none →
      (cachingInterceptor req now st (.failure pre e)).2.1.cache
        = st.cache) := by
  have hg : get req.urlWithParams now st =
      (none, (get req.urlWithParams now st).2) :=
    Prod.ext hmiss rfl
  have hmain : cachingInterceptor req now st (.failure pre e) =
      (.passthrough (.failure pre e), (get req.urlWithParams now st).2, 1) := by
    unfold cachingInterceptor
    rw [if_neg (by simp [hm])]
    rw [hg]
    simp [ContOutcome.events, tapStore_of_no_response hpre]
  refine ⟨hmain, fun habs => ?_⟩
  rw [hmain]
  rw [get_of_mapGet_none now habs]

open CacheService in
/-- C9, witness: a GET against the empty cache whose continuation emits
one `Sent` event and then errors. -/
theorem claim9_witness :
    cachingInterceptor ⟨"GET", "u"⟩ 0 (initialState (HttpResponse Nat))
        (.failure [.sent] "boom") =
      (.passthrough (.failure [.sent] "boom"),
        (get "u" 0 (initialState (HttpResponse Nat))).2, 1) ∧
    (mapGet "u" (initialState (HttpResponse Nat)).cache = none →
      (cachingInterceptor ⟨"GET", "u"⟩ 0 (initialState (HttpResponse Nat))
          (.failure [.sent] "boom")).2.1.cache
        = (initialState (HttpResponse Nat)).cache) :=
  claim9_failure_never_cached Nat String ⟨"GET", "u"⟩ 0
    (initialState (HttpResponse Nat)) [.sent] "boom" rfl (by decide)
    (by decide)

open CacheService in
/-- C3: a GET whose key is uncached invokes the continuation exactly once;
when the continuation succeeds and its stream ends in a completed
response (the earlier events being lower-level, non-response events),
that response is stored under the same key with the default TTL; an
identical GET issued before expiry is answered from the cache — the
stored response is returned and the continuation is not invoked — and a
successful stream containing no completed response stores nothing. -/
theorem claim3_get_miss_caches_response (B E : Type) (req : HttpRequest)
    (now now2 : Nat) (st : CacheState (HttpResponse B))
    (r : HttpResponse B) (pre evs : List (HttpEvent B))
    (next2 : ContOutcome B E)
    (hm : req.method = "GET")
    (hmiss : mapGet req.urlWithParams st.cache = none)
    (hpre : ∀ ev ∈ pre, ev.isResponse = false)
    (hevs : ∀ ev ∈ evs, ev.isResponse = false)
    (hfresh : now2 ≤ now + defaultTTL) :
    (cachingInterceptor req now st
        (.success (pre ++ [.response r]) : ContOutcome B E)).2.2 = 1 ∧
    mapGet req.urlWithParams
        (cachingInterceptor req now st
          (.success (pre ++ [.response r]) : ContOutcome B E)).2.1.cache =
      some ⟨r, now + defaultTTL, now⟩ ∧
    (cachingInterceptor req now2
        (cachingInterceptor req now st
          (.success (pre ++ [.response r]) : ContOutcome B E)).2.1 next2).1 =
      .fromCache r ∧
    (cachingInterceptor req now2
        (cachingInterceptor req now st
          (.success (pre ++ [.response r]) : ContOutcome B E)).2.1 next2).2.2
      = 0 ∧
    (cachingInterceptor req now st
        (.success evs : ContOutcome B E)).2.1.cache = st.cache := by
  have hg := get_of_mapGet_none now hmiss
  have hfirst : cachingInterceptor req now st
      (.success (pre ++ [.response r]) : ContOutcome B E) =
      (.passthrough (.success (pre ++ [.response r])),
        (set req.urlWithParams r.clone none now
          { st with misses := st.misses + 1 }).2, 1) := by
    unfold cachingInterceptor
    rw [if_neg (by simp [hm])]
    rw [hg]
    simp only [ContOutcome.events]
    rw [tapStore_append, tapStore_of_no_response hpre,
      tapStore_single_response]
  have hstore : mapGet req.urlWithParams
      (set req.urlWithParams r.clone none now
        { st with misses := st.misses + 1 }).2.cache =
      some ⟨r, now + defaultTTL, now⟩ := by
    rw [mapGet_set_self, HttpResponse.clone_eq]
  have hlive : ¬ now2 >
      (⟨r, now + defaultTTL, now⟩ : CacheEntry (HttpResponse B)).expiry :=
    Nat.not_lt.mpr hfresh
  have hsecondGet := get_of_mapGet_live hstore hlive
  refine ⟨?_, ?_, ?_, ?_, ?_⟩
  · rw [hfirst]
  · rw [hfirst]
    exact hstore
  · rw [hfirst]
    unfold cachingInterceptor
    rw [if_neg (by simp [hm]), hsecondGet]
  · rw [hfirst]
    unfold cachingInterceptor
    rw [if_neg (by simp [hm]), hsecondGet]
  · unfold cachingInterceptor
    rw [if_neg (by simp [hm]), hg]
    simp only [ContOutcome.events]
    rw [tapStore_of_no_response hevs]

open CacheService in
/-- C3, witness: an uncached GET whose continuation emits `Sent` and then
a completed response with body 7; the repeat request at the moment just
before expiry is served from the cache without a second subscription, and
a response-free success stream stores nothing. -/
theorem claim3_witness :
    (cachingInterceptor ⟨"GET", "u"⟩ 0 (initialState (HttpResponse Nat))
        (.success ([.sent] ++ [.response ⟨200, 7⟩]) : ContOutcome Nat String)).2.2
      = 1 ∧
    mapGet "u"
        (cachingInterceptor ⟨"GET", "u"⟩ 0 (initialState (HttpResponse Nat))
          (.success ([.sent] ++ [.response ⟨200, 7⟩]) :
            ContOutcome Nat String)).2.1.cache =
      some ⟨⟨200, 7⟩, 0 + defaultTTL, 0⟩ ∧
    (cachingInterceptor ⟨"GET", "u"⟩ 600000
        (cachingInterceptor ⟨"GET", "u"⟩ 0 (initialState (HttpResponse Nat))
          (.success ([.sent] ++ [.response ⟨200, 7⟩]) :
            ContOutcome Nat String)).2.1
        (.failure [] "unused")).1 =
      .fromCache ⟨200, 7⟩ ∧
    (cachingInterceptor ⟨"GET", "u"⟩ 600000
        (cachingInterceptor ⟨"GET", "u"⟩ 0 (initialState (HttpResponse Nat))
          (.success ([.sent] ++ [.response ⟨200, 7⟩]) :
            ContOutcome Nat String)).2.1
        (.failure [] "unused")).2.2 = 0 ∧
    (cachingInterceptor ⟨"GET", "u"⟩ 0 (initialState (HttpResponse Nat))
        (.success [.sent, .progress 3] : ContOutcome Nat String)).2.1.cache =
      (initialState (HttpResponse Nat)).cache :=
  claim3_get_miss_caches_response Nat String ⟨"GET", "u"⟩ 0 600000
    (initialState (HttpResponse Nat)) ⟨200, 7⟩ [.sent] [.sent, .progress 3]
    (.failure [] "unused") rfl (by decide) (by decide) (by decide)
    (by decide)

end AngularRxjsOps
